import Mathlib

/-!
Verification of the paper-reader highlight/chat core.

The definitions below are a shallow embedding of the TypeScript source:
strings become `List Char`, JavaScript values become the inductive `JsVal`,
asynchronous handlers become pure functions that return the new state
together with the list of externally visible calls they issue, and the
server routes become functions from a request and database state to a
response and a trace of database actions.  Numeric screen coordinates are
modelled over `ℚ` (the source manipulates them only with `+ - * /` and
`Math.max`).
-/

namespace PaperReader

/-! ### Characters and lines

`splitLines` is the embedding of JavaScript `chunk.split('\n')` used by the
client stream reader in `src/app/page.tsx` (`handleSendMessage`). -/

def splitLines : List Char → List (List Char)
  | [] => [[]]
  | c :: rest =>
    if c = '\n' then [] :: splitLines rest
    else
      match splitLines rest with
      | [] => [[c]]
      | h :: t => (c :: h) :: t

/-- Embedding of `line.startsWith('data: ')`. -/
def startsWithData (l : List Char) : Bool :=
  List.isPrefixOf ("data: ".toList) l

/-- Embedding of `str.includes(sub)` (substring containment test). -/
def containsSub (sub l : List Char) : Bool :=
  match l with
  | [] => List.isPrefixOf sub []
  | _ :: rest => List.isPrefixOf sub l || containsSub sub rest

/-! ### A model of `JSON.parse` restricted to flat objects

The streaming protocol only ever transmits one-level objects whose values
are strings or booleans (`{"text": ...}`, `{"done":true,"conversationId":
...}`, `{"error": ...}`), so the parser below covers exactly that fragment;
on any other input it returns `none`, matching `JSON.parse` throwing a
`SyntaxError` (whose message contains the word `JSON`). -/

inductive JVal where
  | jstr : List Char → JVal
  | jbool : Bool → JVal
  deriving DecidableEq, Repr

abbrev JObj := List (List Char × JVal)

def unescapeChar (c : Char) : Char :=
  if c = 'n' then '\n' else if c = 't' then '\t' else c

def parseStrBody : List Char → Option (List Char × List Char)
  | [] => none
  | '"' :: rest => some ([], rest)
  | '\\' :: c :: rest =>
    match parseStrBody rest with
    | some (s, r) => some (unescapeChar c :: s, r)
    | none => none
  | '\\' :: [] => none
  | c :: rest =>
    match parseStrBody rest with
    | some (s, r) => some (c :: s, r)
    | none => none

def parseStringLit : List Char → Option (List Char × List Char)
  | '"' :: rest => parseStrBody rest
  | _ => none

def parseValue (s : List Char) : Option (JVal × List Char) :=
  match s with
  | 't' :: 'r' :: 'u' :: 'e' :: rest => some (.jbool true, rest)
  | 'f' :: 'a' :: 'l' :: 's' :: 'e' :: rest => some (.jbool false, rest)
  | _ =>
    match parseStringLit s with
    | some (str, rest) => some (.jstr str, rest)
    | none => none

def parseMembers : Nat → List Char → Option (JObj × List Char)
  | 0, _ => none
  | fuel + 1, s =>
    match parseStringLit s with
    | none => none
    | some (key, rest) =>
      match rest with
      | ':' :: rest2 =>
        match parseValue rest2 with
        | none => none
        | some (v, rest3) =>
          match rest3 with
          | ',' :: rest4 =>
            match parseMembers fuel rest4 with
            | some (obj, r) => some ((key, v) :: obj, r)
            | none => none
          | '}' :: rest4 => some ([(key, v)], rest4)
          | _ => none
      | _ => none

/-- `JSON.parse` on the protocol fragment: `none` models a thrown
`SyntaxError`. -/
def parseJsonObj (s : List Char) : Option JObj :=
  match s with
  | '{' :: '}' :: rest => if rest = [] then some [] else none
  | '{' :: rest =>
    match parseMembers (rest.length + 1) rest with
    | some (obj, r) => if r = [] then some obj else none
    | none => none
  | _ => none

/-- Field lookup on a parsed object (`data.error`, `data.text`, ...). -/
def jlookup (obj : JObj) (k : List Char) : Option JVal :=
  (obj.find? (fun p => p.1 = k)).map (fun p => p.2)

/-- JavaScript truthiness of an (optional) field value. -/
def jtruthy : Option JVal → Bool
  | none => false
  | some (.jstr s) => !(s.isEmpty)
  | some (.jbool b) => b

/-- Coercion of a field value to the string JavaScript would use for it
(`new Error(v).message`, string concatenation). -/
def jvalText : Option JVal → List Char
  | none => "undefined".toList
  | some (.jstr s) => s
  | some (.jbool b) => if b then "true".toList else "false".toList

/-! ### Client stream reader (`handleSendMessage`, `src/app/page.tsx`)

The reader loop decodes each physical chunk separately, splits it on
`'\n'`, and for each line with prefix `data: ` runs `JSON.parse` on the
rest.  A parse failure is swallowed (the catch re-throws only errors whose
message does not contain `JSON`); `data.error` is thrown; `data.text` is
appended to the growing assistant message; `data.done` together with
`data.conversationId` records the conversation id. -/

/-- Client-side per-turn stream state: the accumulated assistant content
(fed through `onStreamChunk`) and the recorded conversation id. -/
structure StreamState where
  content : List Char
  convId : Option (List Char)
  deriving DecidableEq, Repr

def initStream : StreamState := { content := [], convId := none }

/-- One line of a decoded chunk, exactly as in the `for (const line of
lines)` body of `handleSendMessage`.  `Except.error` is a thrown error
escaping the loop. -/
def processLine (st : StreamState) (line : List Char) :
    Except (List Char) StreamState :=
  if startsWithData line then
    match parseJsonObj (line.drop 6) with
    | none => .ok st
    | some data =>
      if jtruthy (jlookup data ("error".toList)) then
        if containsSub ("JSON".toList) (jvalText (jlookup data ("error".toList))) then
          .ok st
        else
          .error (jvalText (jlookup data ("error".toList)))
      else
        let st1 :=
          if jtruthy (jlookup data ("text".toList)) then
            { st with content := st.content ++ jvalText (jlookup data ("text".toList)) }
          else st
        let st2 :=
          if jtruthy (jlookup data ("done".toList)) &&
             jtruthy (jlookup data ("conversationId".toList)) then
            { st1 with convId := some (jvalText (jlookup data ("conversationId".toList))) }
          else st1
        .ok st2
  else .ok st

def processLines (st : StreamState) : List (List Char) →
    Except (List Char) StreamState
  | [] => .ok st
  | l :: ls =>
    match processLine st l with
    | .ok st2 => processLines st2 ls
    | .error e => .error e

/-- Processing of one physical chunk: decode, split on `'\n'`, handle each
line. -/
def processChunk (st : StreamState) (chunk : List Char) :
    Except (List Char) StreamState :=
  processLines st (splitLines chunk)

/-- The whole `while (true) \x7b ... reader.read() ... \x7d` loop over the list
of physical chunks delivered by the transport. -/
def readStream (st : StreamState) : List (List Char) →
    Except (List Char) StreamState
  | [] => .ok st
  | c :: cs =>
    match processChunk st c with
    | .ok st2 => readStream st2 cs
    | .error e => .error e

/-! ### Wire frames

`encodeFrame` is how `src/app/api/chat/route.ts` serialises the three
protocol frames (`JSON.stringify` plus the `data: ...\n\n` framing). -/

inductive Frame where
  | textFrame : List Char → Frame
  | doneFrame : List Char → Frame
  | errorFrame : List Char → Frame
  deriving DecidableEq, Repr

def encodeFrame : Frame → List Char
  | .textFrame s => ("data: \x7b\"text\":\"".toList) ++ s ++ ("\"\x7d\n\n".toList)
  | .doneFrame c =>
    ("data: \x7b\"done\":true,\"conversationId\":\"".toList) ++ c ++ ("\"\x7d\n\n".toList)
  | .errorFrame m => ("data: \x7b\"error\":\"".toList) ++ m ++ ("\"\x7d\n\n".toList)

/-- A physical chunk made of whole frames. -/
def encodeChunkOfFrames (fs : List Frame) : List Char :=
  (fs.map encodeFrame).flatten

/-- Specification-level effect of one complete frame on the reader. -/
def frameStep (st : StreamState) : Frame → Except (List Char) StreamState
  | .textFrame s => .ok { st with content := st.content ++ s }
  | .doneFrame c => .ok { st with convId := some c }
  | .errorFrame m =>
    if containsSub ("JSON".toList) m then .ok st else .error m

def frameSteps (st : StreamState) : List Frame →
    Except (List Char) StreamState
  | [] => .ok st
  | f :: fs =>
    match frameStep st f with
    | .ok st2 => frameSteps st2 fs
    | .error e => .error e

/-! ### Lemmas about chunk splitting -/

theorem splitLines_ne_nil (l : List Char) : splitLines l ≠ [] := by
  cases l with
  | nil => simp [splitLines]
  | cons c rest =>
    by_cases h : c = '\n'
    · simp [splitLines, h]
    · simp only [splitLines, h, if_neg]
      cases h2 : splitLines rest with
      | nil => simp
      | cons x t => simp

theorem splitLines_cons_ne (c : Char) (x : List Char) (h : ¬ c = '\n') :
    splitLines (c :: x) = (c :: (splitLines x).headD []) :: (splitLines x).tail := by
  simp only [splitLines, h, if_neg]
  cases h2 : splitLines x with
  | nil => exact absurd h2 (splitLines_ne_nil x)
  | cons y t => simp

theorem splitLines_cons_nl (x : List Char) :
    splitLines ('\n' :: x) = [] :: splitLines x := by
  simp [splitLines]

theorem splitLines_cons_ne_singleton (x : Char) (xs : List Char) :
    splitLines (x :: xs) ≠ [[]] := by
  by_cases h : x = '\n'
  · subst h
    rw [splitLines_cons_nl]
    intro hc
    exact splitLines_ne_nil xs (by simpa using hc)
  · rw [splitLines_cons_ne x xs h]
    intro hc
    simp at hc

/-- Splitting a concatenation whose first part ends in a newline: the first
part contributes whole lines (with a trailing empty line absorbed into the
continuation), so no line spans the boundary. -/
theorem splitLines_append_nl :
    ∀ a b : List Char, a.getLast? = some '\n' →
      ∃ D, splitLines a = D ++ [[]] ∧ splitLines (a ++ b) = D ++ splitLines b := by
  intro a
  induction a with
  | nil => intro b h; simp at h
  | cons c a ih =>
    intro b h
    cases a with
    | nil =>
      simp only [List.getLast?_singleton, Option.some.injEq] at h
      subst h
      exact ⟨[[]], by simp [splitLines], by rw [List.singleton_append, splitLines_cons_nl]; rfl⟩
    | cons d a2 =>
      have h2 : (d :: a2).getLast? = some '\n' := by
        rwa [List.getLast?_cons_cons] at h
      obtain ⟨D, hD1, hD2⟩ := ih b h2
      have hDne : D ≠ [] := by
        intro he
        subst he
        exact splitLines_cons_ne_singleton d a2 (by simpa using hD1)
      obtain ⟨e, D2, rfl⟩ := List.exists_cons_of_ne_nil hDne
      by_cases hc : c = '\n'
      · subst hc
        refine ⟨[] :: e :: D2, ?_, ?_⟩
        · rw [splitLines_cons_nl, hD1]; rfl
        · rw [List.cons_append, splitLines_cons_nl, hD2]; rfl
      · refine ⟨(c :: e) :: D2, ?_, ?_⟩
        · rw [splitLines_cons_ne c _ hc, hD1]; rfl
        · rw [List.cons_append, splitLines_cons_ne c _ hc, hD2]; rfl

theorem processLines_append (st : StreamState) (xs ys : List (List Char)) :
    processLines st (xs ++ ys) =
      (processLines st xs).bind fun st2 => processLines st2 ys := by
  induction xs generalizing st with
  | nil => simp [processLines, Except.bind]
  | cons l ls ih =>
    show processLines st (l :: (ls ++ ys)) = _
    simp only [processLines]
    cases processLine st l with
    | ok st2 => simpa [Except.bind] using ih st2
    | error e => simp [Except.bind]

theorem processLine_nil (st : StreamState) : processLine st [] = .ok st := by
  simp [processLine, startsWithData, List.isPrefixOf]

/-- Processing a chunk that ends exactly at a frame boundary (a trailing
newline) composes with processing of the rest of the stream. -/
theorem processChunk_append (st : StreamState) (a b : List Char)
    (h : a.getLast? = some '\n') :
    processChunk st (a ++ b) = (processChunk st a).bind fun st2 => processChunk st2 b := by
  obtain ⟨D, h1, h2⟩ := splitLines_append_nl a b h
  show processLines st (splitLines (a ++ b)) =
    (processLines st (splitLines a)).bind fun st2 => processLines st2 (splitLines b)
  rw [h1, h2, processLines_append, processLines_append]
  cases processLines st D with
  | error e => simp [Except.bind]
  | ok st2 =>
    simp [Except.bind, processLines, processLine_nil]

/-! ### The three frames of the C1 scenario -/

def frameHel : Frame := .textFrame ("Hel".toList)

def frameLo : Frame := .textFrame ("lo".toList)

def frameDoneC9 : Frame := .doneFrame ("c9".toList)

def c1Frames : List Frame := [frameHel, frameLo, frameDoneC9]

theorem processChunk_frameHel (st : StreamState) :
    processChunk st (encodeFrame frameHel) = frameStep st frameHel := rfl

theorem processChunk_frameLo (st : StreamState) :
    processChunk st (encodeFrame frameLo) = frameStep st frameLo := rfl

theorem processChunk_frameDoneC9 (st : StreamState) :
    processChunk st (encodeFrame frameDoneC9) = frameStep st frameDoneC9 := rfl

theorem encodeFrame_c1_getLast :
    ∀ f ∈ c1Frames, (encodeFrame f).getLast? = some '\n' := by
  decide

theorem processChunk_c1Frame (st : StreamState) (f : Frame) (hf : f ∈ c1Frames) :
    processChunk st (encodeFrame f) = frameStep st f := by
  simp only [c1Frames, List.mem_cons, List.not_mem_nil, or_false] at hf
  rcases hf with rfl | rfl | rfl
  · exact processChunk_frameHel st
  · exact processChunk_frameLo st
  · exact processChunk_frameDoneC9 st

theorem processChunk_chunkOfC1Frames (fs : List Frame)
    (hfs : ∀ f ∈ fs, f ∈ c1Frames) (st : StreamState) :
    processChunk st (encodeChunkOfFrames fs) = frameSteps st fs := by
  induction fs generalizing st with
  | nil => rfl
  | cons f fs ih =>
    have hf : f ∈ c1Frames := hfs f (List.mem_cons_self f fs)
    have hfs2 : ∀ g ∈ fs, g ∈ c1Frames := fun g hg => hfs g (List.mem_cons_of_mem f hg)
    rw [show encodeChunkOfFrames (f :: fs) =
      encodeFrame f ++ encodeChunkOfFrames fs from by
        simp [encodeChunkOfFrames]]
    rw [processChunk_append st _ _ (encodeFrame_c1_getLast f hf),
      processChunk_c1Frame st f hf]
    show _ = frameSteps st (f :: fs)
    simp only [frameSteps]
    cases frameStep st f with
    | ok st2 => simpa [Except.bind] using ih hfs2 st2
    | error e => simp [Except.bind]

theorem readStream_c1Parts (parts : List (List Frame))
    (h : ∀ f ∈ parts.flatten, f ∈ c1Frames) (st : StreamState) :
    readStream st (parts.map encodeChunkOfFrames) = frameSteps st parts.flatten := by
  induction parts generalizing st with
  | nil => rfl
  | cons p ps ih =>
    have hp : ∀ f ∈ p, f ∈ c1Frames := fun f hf =>
      h f (by simp [List.mem_flatten]; exact Or.inl hf)
    have hps : ∀ f ∈ ps.flatten, f ∈ c1Frames := fun f hf =>
      h f (by simp [List.mem_flatten] at hf ⊢; exact Or.inr hf)
    show (match processChunk st (encodeChunkOfFrames p) with
      | .ok st2 => readStream st2 (ps.map encodeChunkOfFrames)
      | .error e => .error e) = _
    rw [processChunk_chunkOfC1Frames p hp st]
    rw [show (p :: ps).flatten = p ++ ps.flatten from rfl]
    rw [show ∀ xs ys, frameSteps st (xs ++ ys) =
        match frameSteps st xs with
        | .ok s2 => frameSteps s2 ys
        | .error e => .error e from ?_]
    · cases frameSteps st p with
      | ok st2 => exact ih hps st2
      | error e => rfl
    · intro xs ys
      induction xs generalizing st with
      | nil => rfl
      | cons x xs ih2 =>
        show (match frameStep st x with
          | .ok s2 => frameSteps s2 (xs ++ ys)
          | .error e => .error e) = _
        cases hx : frameStep st x with
        | ok s2 => simp [frameSteps, hx, ih2 s2]
        | error e => simp [frameSteps, hx]

/-! ### C1: partial-frame tolerance of the client stream reader -/

/-- First physical chunk of the refuting delivery: it ends in the middle of
the first frame's `data: ` line. -/
def c1BadChunk1 : List Char := "data: \x7b\"te".toList

/-- Second physical chunk of the refuting delivery: the rest of the first
frame followed by the remaining two frames, whole. -/
def c1BadChunk2 : List Char :=
  ("xt\":\"Hel\"\x7d\n\n".toList) ++ encodeChunkOfFrames [frameLo, frameDoneC9]

/-- C1 counterexample: the two chunks reassemble exactly the three claimed
frames `data: \x7b"text":"Hel"\x7d\n\n`, `data: \x7b"text":"lo"\x7d\n\n`,
`data: \x7b"done":true,"conversationId":"c9"\x7d\n\n`, yet the reader
produces assistant content `"lo"`, not `"Hello"`: the chunk boundary inside
the first frame's line makes the reader drop the `"Hel"` delta, because
`handleSendMessage` splits each decoded chunk on `'\n'` separately and
keeps no carry-over buffer between chunks. -/
theorem C1_counterexample :
    c1BadChunk1 ++ c1BadChunk2 = encodeChunkOfFrames c1Frames ∧
    readStream initStream [c1BadChunk1, c1BadChunk2] =
      .ok { content := "lo".toList, convId := some ("c9".toList) } ∧
    ("lo".toList : List Char) ≠ "Hello".toList :=
  ⟨by decide, rfl, by decide⟩

/-- C1 (amended): if every physical chunk consists of whole frames (chunk
boundaries only at frame boundaries), then for every such delivery of the
three frames the reader appends the deltas in arrival order, the assistant
content is exactly `"Hello"`, and the final conversation id is `"c9"`.
(The original claim, for arbitrary chunk boundaries, is refuted by
`C1_counterexample`: the reader parses each chunk's lines in isolation and
a frame split across chunks is dropped.) -/
theorem C1_frame_aligned_delivery (parts : List (List Frame))
    (hsplit : parts.flatten = c1Frames) :
    readStream initStream (parts.map encodeChunkOfFrames) =
      .ok { content := "Hello".toList, convId := some ("c9".toList) } := by
  have hmem : ∀ f ∈ parts.flatten, f ∈ c1Frames := by
    rw [hsplit]; exact fun f hf => hf
  rw [readStream_c1Parts parts hmem initStream, hsplit]
  rfl

/-- Witness for C1 (amended) at a concrete frame-aligned delivery. -/
theorem C1_frame_aligned_delivery_witness :
    ([[frameHel], [frameLo, frameDoneC9]] : List (List Frame)).flatten = c1Frames ∧
    readStream initStream
        (([[frameHel], [frameLo, frameDoneC9]] : List (List Frame)).map encodeChunkOfFrames) =
      .ok { content := "Hello".toList, convId := some ("c9".toList) } :=
  ⟨by decide, C1_frame_aligned_delivery [[frameHel], [frameLo, frameDoneC9]] (by decide)⟩

/-! ### Geometry Normalizer (`PDFViewer`: `handleTextSelection` and the
highlight overlay)

`handleTextSelection` captures the selection's bounding rectangle and the
page's bounding rectangle and stores page-relative coordinates divided by
the current scale; the overlay renders a stored anchor by multiplying back
by the current scale, with a minimum width/height of 10 units imposed by
`Math.max(..., 10)`. -/

structure SelectionRect where
  left : ℚ
  top : ℚ
  right : ℚ
  bottom : ℚ
  deriving DecidableEq, Repr

structure PageOrigin where
  left : ℚ
  top : ℚ
  deriving DecidableEq, Repr

/-- The stored `selectionRanges` value (the Anchor). -/
structure SelAnchor where
  page : Int
  startX : ℚ
  startY : ℚ
  endX : ℚ
  endY : ℚ
  startOffset : Nat
  endOffset : Nat
  deriving DecidableEq, Repr

/-- Embedding of the `ranges` computation in `handleTextSelection`
(coordinates normalized to 100% scale for storage). -/
def normalizeSelection (pageNum : Int) (pageRect : PageOrigin)
    (selectionRect : SelectionRect) (scale : ℚ)
    (startOffset endOffset : Nat) : SelAnchor :=
  { page := pageNum
  , startX := (selectionRect.left - pageRect.left) / scale
  , startY := (selectionRect.top - pageRect.top) / scale
  , endX := (selectionRect.right - pageRect.left) / scale
  , endY := (selectionRect.bottom - pageRect.top) / scale
  , startOffset := startOffset
  , endOffset := endOffset }

/-- A rendered on-screen rectangle (page-relative CSS pixels). -/
structure ScreenRect where
  left : ℚ
  top : ℚ
  width : ℚ
  height : ℚ
  deriving DecidableEq, Repr

/-- Embedding of the highlight overlay's `style` computation in `PDFViewer`
(denormalization at the current scale, with the `Math.max(..., 10)` minimum
size). -/
def renderHighlightRect (ranges : SelAnchor) (scale : ℚ) : ScreenRect :=
  { left := ranges.startX * scale
  , top := ranges.startY * scale
  , width := max (ranges.endX - ranges.startX) 10 * scale
  , height := max (ranges.endY - ranges.startY) 10 * scale }

/-- C5 counterexample: a valid 4×20-pixel selection at scale 1 on a page at
origin 0 does not round-trip: denormalizing its normalized anchor renders
width 10 (the overlay's `Math.max(..., 10)` minimum), not the original
width 4, so denormalization is not purely multiplication by the scale. -/
theorem C5_counterexample :
    (renderHighlightRect
        (normalizeSelection 1 ⟨0, 0⟩ ⟨0, 0, 4, 20⟩ 1 0 0) 1).width = 10 ∧
    (⟨0, 0, 4, 20⟩ : SelectionRect).right - (⟨0, 0, 4, 20⟩ : SelectionRect).left = 4 ∧
    (10 : ℚ) ≠ 4 := by
  refine ⟨?_, by norm_num, by norm_num⟩
  norm_num [renderHighlightRect, normalizeSelection]

/-- C5 (amended): for every selection rectangle and positive scale `s`,
denormalizing the anchor obtained by normalizing at scale `s`, back at the
same scale `s`, reproduces the original page-relative rectangle exactly —
provided both dimensions of the selection are at least `10 * s` raw pixels
(the overlay clamps smaller dimensions up to 10 normalized units, refuting
the unrestricted claim, see `C5_counterexample`).  Positions always
round-trip; width and height round-trip exactly on this domain. -/
theorem C5_roundtrip (pageNum : Int) (p : PageOrigin) (r : SelectionRect)
    (s : ℚ) (so eo : Nat) (hs : 0 < s)
    (hw : 10 * s ≤ r.right - r.left) (hh : 10 * s ≤ r.bottom - r.top) :
    renderHighlightRect (normalizeSelection pageNum p r s so eo) s =
      { left := r.left - p.left
      , top := r.top - p.top
      , width := r.right - r.left
      , height := r.bottom - r.top } := by
  have hs0 : s ≠ 0 := ne_of_gt hs
  have hwx : (r.right - p.left) / s - (r.left - p.left) / s = (r.right - r.left) / s := by
    field_simp
  have hhy : (r.bottom - p.top) / s - (r.top - p.top) / s = (r.bottom - r.top) / s := by
    field_simp
  have hwmax : max ((r.right - r.left) / s) 10 = (r.right - r.left) / s := by
    apply max_eq_left
    rw [le_div_iff₀ hs]
    linarith
  have hhmax : max ((r.bottom - r.top) / s) 10 = (r.bottom - r.top) / s := by
    apply max_eq_left
    rw [le_div_iff₀ hs]
    linarith
  simp only [renderHighlightRect, normalizeSelection, hwx, hhy, hwmax, hhmax]
  congr 1 <;> field_simp

/-- Witness for C5 (amended) at concrete values: a 20×30 selection at
scale 2 on a page with origin (2, 3). -/
theorem C5_roundtrip_witness :
    (0 : ℚ) < 2 ∧ (10 : ℚ) * 2 ≤ 32 - 12 ∧ (10 : ℚ) * 2 ≤ 43 - 13 ∧
    renderHighlightRect
        (normalizeSelection 1 ⟨2, 3⟩ ⟨12, 13, 32, 43⟩ 2 0 0) 2 =
      { left := 10, top := 10, width := 20, height := 30 } := by
  refine ⟨by norm_num, by norm_num, by norm_num, ?_⟩
  have h := C5_roundtrip 1 ⟨2, 3⟩ ⟨12, 13, 32, 43⟩ 2 0 0
    (by norm_num) (by norm_num) (by norm_num)
  rw [h]
  norm_num

/-! ### Client session state (`Home` component, `src/app/page.tsx`)

The client keeps the highlight list, the at-most-one pending highlight,
the current highlight/conversation ids, and the live selection.  Handlers
are embedded as pure functions returning the new state and the list of
externally visible API calls they issue. -/

structure MessageView where
  id : List Char
  role : List Char
  content : List Char
  deriving DecidableEq, Repr

structure ConversationView where
  id : List Char
  messages : List MessageView
  deriving DecidableEq, Repr

structure Highlight where
  id : List Char
  pdfId : List Char
  pageNumber : Int
  selectionRanges : List Char
  selectedText : List Char
  conversation : Option ConversationView
  deriving DecidableEq, Repr

/-- The `pendingHighlight` value (not yet saved to the DB). -/
structure PendingHighlight where
  pdfId : List Char
  pageNumber : Int
  selectionRanges : SelAnchor
  selectedText : List Char
  deriving DecidableEq, Repr

/-- The matching predicate of the inline resolver in `handleQueryClick`. -/
def matchesSelection (selectedText : List Char) (page : Int) (h : Highlight) : Bool :=
  h.selectedText == selectedText && h.pageNumber == page

/-- Embedding of `highlights.find((h) => h.selectedText === selectedText &&
h.pageNumber === selectionRanges.page)` in `handleQueryClick`. -/
def resolveHighlight (selectedText : List Char) (page : Int)
    (highlights : List Highlight) : Option Highlight :=
  highlights.find? (matchesSelection selectedText page)

structure SessionState where
  selectedText : List Char
  selectionRanges : Option SelAnchor
  selectedPdf : Option (List Char)
  highlights : List Highlight
  pendingHighlight : Option PendingHighlight
  currentHighlightId : Option (List Char)
  currentConversationId : Option (List Char)
  chatHighlightedText : List Char
  showChat : Bool
  deriving Repr

/-- Embedding of `handleQueryClick`: resolve the current selection against
the known highlights; reuse a match, otherwise store the selection as the
(single) pending highlight; open the chat.  No API call is made. -/
def handleQueryClick (st : SessionState) : SessionState :=
  match st.selectedPdf, st.selectionRanges with
  | some pdfId, some ranges =>
    if st.selectedText.isEmpty then st
    else
      match resolveHighlight st.selectedText ranges.page st.highlights with
      | some existingHighlight =>
        { st with
            currentHighlightId := some existingHighlight.id,
            currentConversationId := existingHighlight.conversation.map (fun c => c.id),
            pendingHighlight := none,
            chatHighlightedText := st.selectedText,
            showChat := true }
      | none =>
        { st with
            pendingHighlight := some
              { pdfId := pdfId, pageNumber := ranges.page,
                selectionRanges := ranges, selectedText := st.selectedText },
            currentHighlightId := none,
            currentConversationId := none,
            chatHighlightedText := st.selectedText,
            showChat := true }
  | _, _ => st

/-- Embedding of the `ChatPanel onClose` handler in `Home`: close the chat
and clear the pending highlight if no LLM call was made.  No API call is
made. -/
def chatPanelOnClose (st : SessionState) : SessionState :=
  { st with showChat := false, selectedText := [], pendingHighlight := none }

/-- Externally visible API calls issued by the client handlers. -/
inductive ApiCall where
  | createHighlight : PendingHighlight → ApiCall
  | chatRequest : List Char → List Char → Option (List Char) → ApiCall
  deriving DecidableEq, Repr

/-- Embedding of the promotion/turn-start phase of `handleSendMessage`:
if a pending highlight exists and no highlight id is resolved, persist it
first; only then issue the chat request carrying the (possibly new)
highlight id.  `createResult` models the store's response to the create
call; the returned `Except` is the promise outcome of the handler. -/
def handleSendMessage (st : SessionState) (message : List Char)
    (createResult : PendingHighlight → Except (List Char) Highlight) :
    SessionState × List ApiCall × Except (List Char) Unit :=
  match st.pendingHighlight, st.currentHighlightId with
  | some pending, none =>
    match createResult pending with
    | .ok h =>
      ({ st with
          highlights := st.highlights ++ [h],
          currentHighlightId := some h.id,
          pendingHighlight := none },
       [.createHighlight pending, .chatRequest h.id message st.currentConversationId],
       .ok ())
    | .error e => (st, [.createHighlight pending], .error e)
  | _, some highlightId =>
    (st, [.chatRequest highlightId message st.currentConversationId], .ok ())
  | none, none => (st, [], .ok ())

/-- Client events relevant to the pending-highlight lifecycle. -/
inductive ClientEv where
  | textSelect : List Char → SelAnchor → ClientEv
  | queryClick : ClientEv
  | closeChat : ClientEv
  | send : List Char → (PendingHighlight → Except (List Char) Highlight) → ClientEv

/-- One step of the client session: the handler invoked by the event,
together with the API calls it issues. -/
def sessionStep (st : SessionState) : ClientEv → SessionState × List ApiCall
  | .textSelect text ranges =>
    (if text.isEmpty then st
     else { st with selectedText := text, selectionRanges := some ranges }, [])
  | .queryClick => (handleQueryClick st, [])
  | .closeChat => (chatPanelOnClose st, [])
  | .send message createResult =>
    let r := handleSendMessage st message createResult
    (r.1, r.2.1)

/-! ### C8: the highlight identity resolver -/

theorem matchesSelection_iff (t : List Char) (p : Int) (h : Highlight) :
    matchesSelection t p h = true ↔ h.selectedText = t ∧ h.pageNumber = p := by
  simp [matchesSelection]

theorem resolveHighlight_some_decomp (t : List Char) (p : Int) :
    ∀ (hs : List Highlight) (h : Highlight), resolveHighlight t p hs = some h →
      h.selectedText = t ∧ h.pageNumber = p ∧
      ∃ pre post, hs = pre ++ h :: post ∧
        ∀ x ∈ pre, ¬(x.selectedText = t ∧ x.pageNumber = p) := by
  intro hs
  induction hs with
  | nil => intro h hh; simp [resolveHighlight, List.find?] at hh
  | cons a hs ih =>
    intro h hh
    by_cases ha : matchesSelection t p a = true
    · rw [resolveHighlight, List.find?_cons_of_pos _ ha] at hh
      obtain rfl : a = h := by simpa using hh
      obtain ⟨h1, h2⟩ := (matchesSelection_iff t p a).mp ha
      exact ⟨h1, h2, [], hs, rfl, by simp⟩
    · rw [resolveHighlight, List.find?_cons_of_neg _ ha] at hh
      obtain ⟨h1, h2, pre, post, hdec, hpre⟩ := ih h hh
      refine ⟨h1, h2, a :: pre, post, by rw [hdec]; rfl, ?_⟩
      intro x hx
      rcases List.mem_cons.mp hx with rfl | hx2
      · exact fun hc => ha ((matchesSelection_iff t p x).mpr hc)
      · exact hpre x hx2

/-- C8: the identity resolver returns an existing highlight exactly when
some known highlight has `selectedText` string-equal to the candidate text
and `pageNumber` equal to the candidate page; the first such highlight in
the list wins.  A selection whose text differs in any way (in particular a
strict superset or subset of a known highlight's text) or is on a
different page contributes no match, and when nothing matches the
resolver reports `none` (the selection is treated as a new highlight). -/
theorem C8_identity_resolver (t : List Char) (p : Int) (hs : List Highlight) :
    (∀ h, resolveHighlight t p hs = some h →
        h.selectedText = t ∧ h.pageNumber = p ∧
        ∃ pre post, hs = pre ++ h :: post ∧
          ∀ x ∈ pre, ¬(x.selectedText = t ∧ x.pageNumber = p)) ∧
    (resolveHighlight t p hs = none ↔
        ∀ h ∈ hs, ¬(h.selectedText = t ∧ h.pageNumber = p)) := by
  constructor
  · exact fun h hh => resolveHighlight_some_decomp t p hs h hh
  · rw [resolveHighlight, List.find?_eq_none]
    constructor
    · intro hnone h hmem hcond
      exact hnone h hmem ((matchesSelection_iff t p h).mpr hcond)
    · intro hall h hmem hmatch
      exact hall h hmem ((matchesSelection_iff t p h).mp hmatch)

/-- The stored highlight of the worked examples (text `"A"`, page 1). -/
def hlA : Highlight :=
  { id := "h1".toList, pdfId := "d1".toList, pageNumber := 1,
    selectionRanges := [], selectedText := "A".toList, conversation := none }

/-- Witness for C8 at the spec's own example: `("A", 1)` matches the known
highlight, `("A", 2)` and `("B", 1)` match nothing. -/
theorem C8_identity_resolver_witness :
    resolveHighlight ("A".toList) 1 [hlA] = some hlA ∧
    hlA.selectedText = "A".toList ∧ hlA.pageNumber = 1 ∧
    resolveHighlight ("A".toList) 2 [hlA] = none ∧
    resolveHighlight ("B".toList) 1 [hlA] = none := by
  refine ⟨rfl, ?_, ?_, ?_, ?_⟩
  · exact ((C8_identity_resolver ("A".toList) 1 [hlA]).1 hlA rfl).1
  · exact ((C8_identity_resolver ("A".toList) 1 [hlA]).1 hlA rfl).2.1
  · exact (C8_identity_resolver ("A".toList) 2 [hlA]).2.mpr (by decide)
  · exact (C8_identity_resolver ("B".toList) 1 [hlA]).2.mpr (by decide)

/-! ### C2: promotion of the pending highlight on first send -/

/-- C2: sending a message while a candidate `c` is pending and no real
highlight id is resolved issues exactly one store-create call, for `c`,
before the chat request; on success the chat request carries exactly the
highlight id returned by the create.  If the create fails, no chat request
is issued, the handler rejects with the error, and the session state is
unchanged — in particular the pending candidate is still `c`, so the user
can retry. -/
theorem C2_pending_promotion (st : SessionState) (message : List Char)
    (createResult : PendingHighlight → Except (List Char) Highlight)
    (c : PendingHighlight)
    (hpend : st.pendingHighlight = some c)
    (hid : st.currentHighlightId = none) :
    (∀ h, createResult c = .ok h →
      handleSendMessage st message createResult =
        ({ st with
            highlights := st.highlights ++ [h],
            currentHighlightId := some h.id,
            pendingHighlight := none },
         [.createHighlight c, .chatRequest h.id message st.currentConversationId],
         .ok ())) ∧
    (∀ e, createResult c = .error e →
      handleSendMessage st message createResult =
        (st, [.createHighlight c], .error e)) := by
  constructor
  · intro h hok
    simp [handleSendMessage, hpend, hid, hok]
  · intro e herr
    simp [handleSendMessage, hpend, hid, herr]

/-- The pending candidate of the worked examples. -/
def pendingA : PendingHighlight :=
  { pdfId := "d1".toList, pageNumber := 1,
    selectionRanges := { page := 1, startX := 0, startY := 0, endX := 20, endY := 20,
                         startOffset := 0, endOffset := 0 },
    selectedText := "A".toList }

/-- A session state holding `pendingA` and no resolved highlight id. -/
def sessionWithPending : SessionState :=
  { selectedText := "A".toList
  , selectionRanges := some pendingA.selectionRanges
  , selectedPdf := some ("d1".toList)
  , highlights := []
  , pendingHighlight := some pendingA
  , currentHighlightId := none
  , currentConversationId := none
  , chatHighlightedText := "A".toList
  , showChat := true }

/-- Witness for C2: with a mock store returning id `"h1"` the chat request
carries `highlightId = "h1"`; with a failing store no chat request is made
and the state (hence the pending candidate) is unchanged. -/
theorem C2_pending_promotion_witness :
    sessionWithPending.pendingHighlight = some pendingA ∧
    sessionWithPending.currentHighlightId = none ∧
    handleSendMessage sessionWithPending ("why?".toList) (fun _ => .ok hlA) =
      ({ sessionWithPending with
          highlights := sessionWithPending.highlights ++ [hlA],
          currentHighlightId := some hlA.id,
          pendingHighlight := none },
       [.createHighlight pendingA,
        .chatRequest hlA.id ("why?".toList) sessionWithPending.currentConversationId],
       .ok ()) ∧
    handleSendMessage sessionWithPending ("why?".toList) (fun _ => .error ("db down".toList)) =
      (sessionWithPending, [.createHighlight pendingA], .error ("db down".toList)) := by
  refine ⟨rfl, rfl, ?_, ?_⟩
  · exact (C2_pending_promotion sessionWithPending ("why?".toList)
      (fun _ => .ok hlA) pendingA rfl rfl).1 hlA rfl
  · exact (C2_pending_promotion sessionWithPending ("why?".toList)
      (fun _ => .error ("db down".toList)) pendingA rfl rfl).2 ("db down".toList) rfl

/-! ### C7: the pending-highlight lifecycle invariants -/

/-- C7: in every session state at most one pending highlight exists (the
state holds a single optional candidate); confirming a selection issues no
store call, and when the selection matches no known highlight it replaces
the pending candidate wholesale with the new one; closing the chat panel
discards the pending candidate with no store call; and a candidate is only
ever sent to the store by a send event while it is the current pending
candidate — so a discarded candidate never reaches the store. -/
theorem C7_pending_lifecycle (st : SessionState) (pdfId : List Char)
    (ranges : SelAnchor)
    (hpdf : st.selectedPdf = some pdfId)
    (hranges : st.selectionRanges = some ranges)
    (htext : st.selectedText.isEmpty = false) :
    (∀ st2 : SessionState, ∀ c1 c2, st2.pendingHighlight = some c1 →
        st2.pendingHighlight = some c2 → c1 = c2) ∧
    ((sessionStep st .queryClick).2 = [] ∧
      (resolveHighlight st.selectedText ranges.page st.highlights = none →
        (handleQueryClick st).pendingHighlight =
          some { pdfId := pdfId, pageNumber := ranges.page,
                 selectionRanges := ranges, selectedText := st.selectedText })) ∧
    ((sessionStep st .closeChat).1.pendingHighlight = none ∧
      (sessionStep st .closeChat).2 = []) ∧
    (∀ ev c, ApiCall.createHighlight c ∈ (sessionStep st ev).2 →
        st.pendingHighlight = some c ∧ st.currentHighlightId = none) := by
  refine ⟨?_, ⟨rfl, ?_⟩, ⟨rfl, rfl⟩, ?_⟩
  · intro st2 c1 c2 h1 h2
    rw [h1] at h2
    exact (Option.some.injEq c1 c2 ▸ h2).symm ▸ rfl
  · intro hnone
    simp [handleQueryClick, hpdf, hranges, htext, hnone]
  · intro ev c hmem
    cases ev with
    | textSelect text r =>
      simp only [sessionStep] at hmem
      rcases hmem with _
      cases text.isEmpty <;> simp_all
    | queryClick => simp [sessionStep] at hmem
    | closeChat => simp [sessionStep] at hmem
    | send message createResult =>
      simp only [sessionStep] at hmem
      cases hp : st.pendingHighlight with
      | none =>
        cases hid : st.currentHighlightId with
        | none => simp [handleSendMessage, hp, hid] at hmem
        | some i => simp [handleSendMessage, hp, hid] at hmem
      | some pending =>
        cases hid : st.currentHighlightId with
        | some i => simp [handleSendMessage, hp, hid] at hmem
        | none =>
          cases hcr : createResult pending with
          | ok h =>
            simp [handleSendMessage, hp, hid, hcr] at hmem
            exact ⟨by rw [hmem], rfl⟩
          | error e =>
            simp [handleSendMessage, hp, hid, hcr] at hmem
            exact ⟨by rw [hmem], rfl⟩

/-- Witness for C7: in the concrete pending session, confirming a fresh
selection stores it as the pending candidate with no store call, and
closing the chat clears it with no store call. -/
theorem C7_pending_lifecycle_witness :
    (sessionStep sessionWithPending .queryClick).2 = [] ∧
    (handleQueryClick sessionWithPending).pendingHighlight =
      some { pdfId := "d1".toList, pageNumber := pendingA.selectionRanges.page,
             selectionRanges := pendingA.selectionRanges,
             selectedText := sessionWithPending.selectedText } ∧
    (sessionStep sessionWithPending .closeChat).1.pendingHighlight = none ∧
    (sessionStep sessionWithPending .closeChat).2 = [] := by
  have h := C7_pending_lifecycle sessionWithPending ("d1".toList)
    pendingA.selectionRanges rfl rfl rfl
  exact ⟨h.2.1.1, h.2.1.2 rfl, h.2.2.1.1, h.2.2.1.2⟩

/-! ### Chat UI scroll coordination (`src/components/ChatOverlay.tsx`)

The component keeps `isUserScrolledUp` (updated by `handleScroll` with a
50px near-bottom threshold), an effect that scrolls to the newest content
whenever the messages change and the user is not scrolled up, and an
effect that shows the new-message button exactly when streaming just ended
while the user is scrolled up (`wasStreamingRef`).  Events are the state
updates that can re-run those effects; actions are the externally visible
DOM effects. -/

structure ChatUI where
  isUserScrolledUp : Bool
  isStreaming : Bool
  wasStreaming : Bool
  showNewMessageButton : Bool
  deriving DecidableEq, Repr

/-- `handleScroll`'s near-bottom test:
`scrollHeight - scrollTop - clientHeight < 50`. -/
def isAtBottom (scrollHeight scrollTop clientHeight : Int) : Bool :=
  scrollHeight - scrollTop - clientHeight < 50

inductive UIEv where
  | scroll : Int → Int → Int → UIEv
  | streamStart : UIEv
  | chunk : UIEv
  | streamEnd : UIEv
  deriving DecidableEq, Repr

inductive UIAct where
  | autoScroll : UIAct
  | showButton : UIAct
  deriving DecidableEq, Repr

/-- One UI event together with the effects it re-runs.  `scroll` runs
`handleScroll` (and re-runs both effects when `isUserScrolledUp` changed);
`streamStart` is `handleSend` appending the user message and assistant
placeholder and setting `isStreaming`; `chunk` is `onStreamChunk` updating
the messages; `streamEnd` clears `isStreaming`, which triggers the
show-button effect when the user is still scrolled up. -/
def uiStep (st : ChatUI) : UIEv → ChatUI × List UIAct
  | .scroll scrollHeight scrollTop clientHeight =>
    let bottom := isAtBottom scrollHeight scrollTop clientHeight
    let newUp := !bottom
    let btn := if bottom then false else st.showNewMessageButton
    if newUp = st.isUserScrolledUp then
      ({ st with showNewMessageButton := btn }, [])
    else
      let showB := st.wasStreaming && !st.isStreaming && newUp
      ({ st with
          isUserScrolledUp := newUp,
          showNewMessageButton := if showB then true else btn,
          wasStreaming := st.isStreaming },
       (if newUp then [] else [.autoScroll]) ++ (if showB then [.showButton] else []))
  | .streamStart =>
    if st.isStreaming then (st, [])
    else
      ({ st with isStreaming := true, wasStreaming := true },
       if st.isUserScrolledUp then [] else [.autoScroll])
  | .chunk =>
    (st, if st.isUserScrolledUp then [] else [.autoScroll])
  | .streamEnd =>
    if st.isStreaming then
      let showB := st.wasStreaming && st.isUserScrolledUp
      ({ st with
          isStreaming := false,
          wasStreaming := false,
          showNewMessageButton := if showB then true else st.showNewMessageButton },
       if showB then [.showButton] else [])
    else (st, [])

/-- A run of UI events, collecting all actions in order. -/
def uiRun (st : ChatUI) : List UIEv → ChatUI × List UIAct
  | [] => (st, [])
  | e :: es =>
    let r := uiStep st e
    let r2 := uiRun r.1 es
    (r2.1, r.2 ++ r2.2)

/-! ### Client turn outcome (`handleSend` in `ChatOverlay.tsx`)

`handleSend` appends the user message and an empty assistant placeholder,
streams deltas into the placeholder, and on a thrown error replaces the
last message with the error text. -/

structure ChatMsg where
  role : List Char
  content : List Char
  deriving DecidableEq, Repr

/-- How a turn ends for the chat UI: completed (conversation id recorded
from the terminal frame) or errored with a surfaced message. -/
inductive TurnEnd where
  | completed : Option (List Char) → TurnEnd
  | errored : List Char → TurnEnd
  deriving DecidableEq, Repr

/-- Embedding of one `handleSend` turn over the delivered chunks: the
final message list and the turn's end state. -/
def handleSendTurn (messages : List ChatMsg) (messageToSend : List Char)
    (chunks : List (List Char)) : List ChatMsg × TurnEnd :=
  let base := messages ++
    [{ role := "user".toList, content := messageToSend },
     { role := "assistant".toList, content := [] }]
  match readStream initStream chunks with
  | .ok st =>
    (base.dropLast ++ [{ role := "assistant".toList, content := st.content }],
     .completed st.convId)
  | .error e =>
    (base.dropLast ++ [{ role := "assistant".toList, content := e }],
     .errored e)

theorem uiRun_chunks_scrolledUp (rest : List UIEv) :
    ∀ (n : Nat) (st : ChatUI), st.isUserScrolledUp = true →
      uiRun st (List.replicate n .chunk ++ rest) = uiRun st rest := by
  intro n
  induction n with
  | zero => intro st h; rfl
  | succ n ih =>
    intro st h
    rw [List.replicate_succ, List.cons_append]
    show ((uiRun (uiStep st .chunk).1 (List.replicate n .chunk ++ rest)).1,
      (uiStep st .chunk).2 ++ (uiRun (uiStep st .chunk).1 (List.replicate n .chunk ++ rest)).2) = _
    rw [show uiStep st .chunk = (st, []) from by simp [uiStep, h]]
    rw [ih st h]
    simp

/-- C9: auto-scroll on new streamed content fires exactly when the viewer
was at-or-near the bottom when the content arrived (`isUserScrolledUp`
reflects the latest scroll measurement against the 50px threshold); and in
a stream that starts while the viewer is scrolled up and during which the
user does not scroll, no auto-scroll happens for any delta and the
new-message affordance is shown exactly once — at stream end, while the
user is still scrolled up. -/
theorem C9_autoscroll (st : ChatUI) (n : Nat)
    (hup : st.isUserScrolledUp = true)
    (hstream : st.isStreaming = false)
    (hwas : st.wasStreaming = false)
    (hbtn : st.showNewMessageButton = false) :
    (∀ st2 : ChatUI, (uiStep st2 .chunk).2 =
        if st2.isUserScrolledUp then [] else [.autoScroll]) ∧
    (∀ (st2 : ChatUI) (sh sc ch : Int),
        (uiStep st2 (.scroll sh sc ch)).1.isUserScrolledUp = !(isAtBottom sh sc ch)) ∧
    ((uiRun st (UIEv.streamStart :: (List.replicate n .chunk ++ [.streamEnd]))).2 =
        [.showButton]) ∧
    ((uiRun st (UIEv.streamStart ::
        (List.replicate n .chunk ++ [.streamEnd]))).1.showNewMessageButton = true) := by
  have hstep : uiStep st .streamStart =
      ({ st with isStreaming := true, wasStreaming := true }, []) := by
    simp [uiStep, hstream, hup]
  have hrun : uiRun st (UIEv.streamStart :: (List.replicate n .chunk ++ [.streamEnd])) =
      uiRun { st with isStreaming := true, wasStreaming := true } [.streamEnd] := by
    show ((uiRun (uiStep st .streamStart).1 (List.replicate n .chunk ++ [.streamEnd])).1,
      (uiStep st .streamStart).2 ++
        (uiRun (uiStep st .streamStart).1 (List.replicate n .chunk ++ [.streamEnd])).2) = _
    rw [hstep]
    rw [uiRun_chunks_scrolledUp [.streamEnd] n _ (by simp [hup])]
    simp
  have hend : uiRun { st with isStreaming := true, wasStreaming := true } [.streamEnd] =
      ({ st with
          isStreaming := false,
          wasStreaming := false,
          showNewMessageButton := true }, [.showButton]) := by
    show ((uiRun (uiStep _ .streamEnd).1 []).1,
      (uiStep _ .streamEnd).2 ++ (uiRun (uiStep _ .streamEnd).1 []).2) = _
    simp [uiStep, uiRun, hup]
  refine ⟨?_, ?_, ?_, ?_⟩
  · intro st2
    rfl
  · intro st2 sh sc ch
    simp only [uiStep]
    by_cases hc : (!(isAtBottom sh sc ch)) = st2.isUserScrolledUp
    · simp [hc]
    · simp [hc]
  · rw [hrun, hend]
  · rw [hrun, hend]

/-- Witness for C9: a concrete scrolled-up viewer, two deltas, stream end:
no auto-scroll, the affordance appears once; and the per-arrival rule at
both scroll positions. -/
theorem C9_autoscroll_witness :
    (uiRun { isUserScrolledUp := true, isStreaming := false,
             wasStreaming := false, showNewMessageButton := false }
        (UIEv.streamStart :: (List.replicate 2 .chunk ++ [.streamEnd]))).2 =
      [.showButton] ∧
    (uiStep { isUserScrolledUp := false, isStreaming := true,
              wasStreaming := true, showNewMessageButton := false } .chunk).2 =
      [.autoScroll] ∧
    (uiStep { isUserScrolledUp := true, isStreaming := true,
              wasStreaming := true, showNewMessageButton := false } .chunk).2 = [] := by
  have h := C9_autoscroll
    { isUserScrolledUp := true, isStreaming := false,
      wasStreaming := false, showNewMessageButton := false } 2 rfl rfl rfl rfl
  refine ⟨h.2.2.1, ?_, ?_⟩
  · have h2 := h.1
      { isUserScrolledUp := false, isStreaming := true,
        wasStreaming := true, showNewMessageButton := false }
    simpa using h2
  · have h2 := h.1
      { isUserScrolledUp := true, isStreaming := true,
        wasStreaming := true, showNewMessageButton := false }
    simpa using h2

/-! ### JavaScript request values

Request bodies arrive as parsed JSON; validation in the routes uses
JavaScript truthiness and `=== undefined` checks. -/

inductive JsVal where
  | undef : JsVal
  | jsnull : JsVal
  | jsbool : Bool → JsVal
  | jsnum : Int → JsVal
  | jsstr : List Char → JsVal
  | jsobj : JsVal
  deriving DecidableEq, Repr

/-- JavaScript truthiness: `undefined`, `null`, `false`, `0` and `""` are
falsy; objects are truthy. -/
def jsTruthy : JsVal → Bool
  | .undef => false
  | .jsnull => false
  | .jsbool b => b
  | .jsnum n => !(n == 0)
  | .jsstr s => !(s.isEmpty)
  | .jsobj => true

def jsStrVal : JsVal → List Char
  | .jsstr s => s
  | _ => []

/-! ### Server chat route (`POST` in `src/app/api/chat/route.ts`)

The route validates `highlightId` and `message`, resolves the 1:1
conversation (by id, by highlight, or by creating one), saves the user
message, then streams: one `text` frame per LLM chunk, then the assistant
message save, then the `done` frame.  An LLM stream failure reaches the
`catch` that calls `controller.error` — no further frame and no assistant
save.  The trace records the database writes and emitted frames in
program order. -/

structure ConvRec where
  id : List Char
  highlightId : List Char
  deriving DecidableEq, Repr

inductive SrvEv where
  | createConversation : List Char → List Char → SrvEv
  | saveMessage : List Char → List Char → List Char → SrvEv
  | emitFrame : Frame → SrvEv
  | streamFailed : SrvEv
  deriving DecidableEq, Repr

structure ChatDb where
  conversations : List ConvRec
  deriving DecidableEq, Repr

def findConvById (db : ChatDb) (i : List Char) : Option ConvRec :=
  db.conversations.find? (fun c => c.id == i)

def findConvByHighlight (db : ChatDb) (hid : List Char) : Option ConvRec :=
  db.conversations.find? (fun c => c.highlightId == hid)

structure ChatRequestBody where
  highlightId : JsVal
  message : JsVal
  conversationId : JsVal
  deriving DecidableEq, Repr

inductive ChatResponse where
  | jsonError : Int → ChatResponse
  | streamResponse : ChatResponse
  deriving DecidableEq, Repr

/-- The body of the `ReadableStream start` callback: emit one text frame
per LLM chunk while accumulating `fullResponse`; after the stream ends,
save the assistant message, then emit the terminal frame.  An `Except.error`
read models the LLM stream throwing: control reaches the `catch`, which
calls `controller.error` — nothing further is emitted or saved. -/
def chatStreamEvents (conversationId : List Char) :
    List (Except (List Char) (List Char)) → List Char → List SrvEv
  | [], fullResponse =>
    [.saveMessage conversationId ("assistant".toList) fullResponse,
     .emitFrame (.doneFrame conversationId)]
  | .ok chunkText :: rest, fullResponse =>
    .emitFrame (.textFrame chunkText) ::
      chatStreamEvents conversationId rest (fullResponse ++ chunkText)
  | .error _ :: _, _ => [.streamFailed]

/-- Conversation resolution in the chat route: by `conversationId` when
truthy, otherwise the highlight's existing conversation or a freshly
created one (`freshConvId` models the id Prisma generates). -/
def resolveConversation (db : ChatDb) (body : ChatRequestBody)
    (freshConvId : List Char) : Option (ConvRec × List SrvEv) :=
  if jsTruthy body.conversationId then
    (findConvById db (jsStrVal body.conversationId)).map (fun c => (c, []))
  else
    match findConvByHighlight db (jsStrVal body.highlightId) with
    | some c => some (c, [])
    | none =>
      some ({ id := freshConvId, highlightId := jsStrVal body.highlightId },
        [.createConversation freshConvId (jsStrVal body.highlightId)])

/-- Embedding of the chat route `POST`: response plus the trace of
database writes and emitted frames. -/
def chatPOST (db : ChatDb) (body : ChatRequestBody) (freshConvId : List Char)
    (llm : List (Except (List Char) (List Char))) :
    ChatResponse × List SrvEv :=
  if !(jsTruthy body.highlightId) || !(jsTruthy body.message) then
    (.jsonError 400, [])
  else
    match resolveConversation db body freshConvId with
    | none => (.jsonError 404, [])
    | some (conversation, convEvs) =>
      (.streamResponse,
        convEvs ++
          .saveMessage conversation.id ("user".toList) (jsStrVal body.message) ::
            chatStreamEvents conversation.id llm [])

def isUserSave : SrvEv → Bool
  | .saveMessage _ r _ => r == "user".toList
  | _ => false

def isAssistantSave : SrvEv → Bool
  | .saveMessage _ r _ => r == "assistant".toList
  | _ => false

def isFrameEmit : SrvEv → Bool
  | .emitFrame _ => true
  | _ => false

/-! ### C3: per-turn persistence on the server -/

theorem chatStreamEvents_ok (cid : List Char) :
    ∀ (chunks : List (List Char)) (acc : List Char),
      chatStreamEvents cid (chunks.map .ok) acc =
        chunks.map (fun t => .emitFrame (.textFrame t)) ++
          [.saveMessage cid ("assistant".toList) (acc ++ chunks.flatten),
           .emitFrame (.doneFrame cid)] := by
  intro chunks
  induction chunks with
  | nil => intro acc; simp [chatStreamEvents]
  | cons t ts ih =>
    intro acc
    simp only [List.map_cons, chatStreamEvents, ih (acc ++ t), List.flatten_cons,
      List.append_assoc, List.cons_append]

theorem resolveConversation_events (db : ChatDb) (body : ChatRequestBody)
    (freshConvId : List Char) (conv : ConvRec) (convEvs : List SrvEv)
    (h : resolveConversation db body freshConvId = some (conv, convEvs)) :
    convEvs = [] ∨
      convEvs = [.createConversation freshConvId (jsStrVal body.highlightId)] := by
  unfold resolveConversation at h
  by_cases hc : jsTruthy body.conversationId = true
  · rw [if_pos hc] at h
    cases hf : findConvById db (jsStrVal body.conversationId) with
    | none => rw [hf] at h; simp at h
    | some c => rw [hf] at h; simp at h; exact Or.inl h.2
  · rw [if_neg hc] at h
    cases hf : findConvByHighlight db (jsStrVal body.highlightId) with
    | none => rw [hf] at h; simp at h; exact Or.inr h.2.symm
    | some c => rw [hf] at h; simp at h; exact Or.inl h.2

/-- The concrete database and request of the C3 scenario: conversation
`c9` already exists for highlight `h1`. -/
def chatDb0 : ChatDb := { conversations := [{ id := "c9".toList, highlightId := "h1".toList }] }

def chatBody0 : ChatRequestBody :=
  { highlightId := .jsstr ("h1".toList), message := .jsstr ("hi".toList),
    conversationId := .jsnull }

/-- C3 counterexample: in a concrete completed turn the assistant message
save occurs after the last text-delta frame but strictly *before* the
terminal `done` frame — the terminal frame is the last event of the trace,
so nothing (in particular not the assistant save) happens after it.  This
refutes "the assistant Message is persisted after the terminal frame". -/
theorem C3_counterexample :
    (chatPOST chatDb0 chatBody0 ("cF".toList)
        [.ok ("Hel".toList), .ok ("lo".toList)]).2 =
      [.saveMessage ("c9".toList) ("user".toList) ("hi".toList),
       .emitFrame (.textFrame ("Hel".toList)),
       .emitFrame (.textFrame ("lo".toList)),
       .saveMessage ("c9".toList) ("assistant".toList) ("Hello".toList),
       .emitFrame (.doneFrame ("c9".toList))] ∧
    (chatPOST chatDb0 chatBody0 ("cF".toList)
        [.ok ("Hel".toList), .ok ("lo".toList)]).2.getLast? =
      some (.emitFrame (.doneFrame ("c9".toList))) ∧
    isAssistantSave (.emitFrame (.doneFrame ("c9".toList))) = false :=
  ⟨rfl, rfl, rfl⟩

/-- C3 (amended): for every completed turn (valid request, resolved
conversation, every LLM read succeeding) the server persists exactly one
user message and exactly one assistant message; the user message is saved
before any frame of the stream is emitted, and the assistant message is
saved after the last text-delta frame and immediately *before* the
terminal `done` frame is enqueued (the original claim said after the
terminal frame; `C3_counterexample` refutes that ordering). -/
theorem C3_persistence_order (db : ChatDb) (body : ChatRequestBody)
    (freshConvId : List Char) (chunks : List (List Char))
    (conv : ConvRec) (convEvs : List SrvEv)
    (hh : jsTruthy body.highlightId = true)
    (hm : jsTruthy body.message = true)
    (hres : resolveConversation db body freshConvId = some (conv, convEvs)) :
    (chatPOST db body freshConvId (chunks.map .ok)).2 =
      convEvs ++
        [SrvEv.saveMessage conv.id ("user".toList) (jsStrVal body.message)] ++
        chunks.map (fun t => .emitFrame (.textFrame t)) ++
        [SrvEv.saveMessage conv.id ("assistant".toList) chunks.flatten,
         .emitFrame (.doneFrame conv.id)] ∧
    (chatPOST db body freshConvId (chunks.map .ok)).2.countP isUserSave = 1 ∧
    (chatPOST db body freshConvId (chunks.map .ok)).2.countP isAssistantSave = 1 := by
  have htrace : (chatPOST db body freshConvId (chunks.map .ok)).2 =
      convEvs ++
        [SrvEv.saveMessage conv.id ("user".toList) (jsStrVal body.message)] ++
        chunks.map (fun t => .emitFrame (.textFrame t)) ++
        [SrvEv.saveMessage conv.id ("assistant".toList) chunks.flatten,
         .emitFrame (.doneFrame conv.id)] := by
    unfold chatPOST
    rw [hh, hm, hres]
    simp [chatStreamEvents_ok conv.id chunks []]
  have hcount : ∀ p : SrvEv → Bool,
      p (.saveMessage conv.id ("user".toList) (jsStrVal body.message)) = true →
      p (.saveMessage conv.id ("assistant".toList) chunks.flatten) = false →
      p (.emitFrame (.doneFrame conv.id)) = false →
      (∀ t, p (.emitFrame (.textFrame t)) = false) →
      convEvs.countP p = 0 →
      (chatPOST db body freshConvId (chunks.map .ok)).2.countP p = 1 := by
    intro p hu ha hd ht hconv
    rw [htrace]
    have h0 : List.countP (p ∘ fun t => SrvEv.emitFrame (Frame.textFrame t)) chunks = 0 :=
      List.countP_eq_zero.mpr (fun t _ => by simp [Function.comp, ht t])
    simp only [List.countP_append, List.countP_cons, List.countP_map, hconv, h0, hu, ha, hd]
    simp
  have hconvEvs : ∀ p : SrvEv → Bool,
      (∀ a b, p (.createConversation a b) = false) → convEvs.countP p = 0 := by
    intro p hp
    rcases resolveConversation_events db body freshConvId conv convEvs hres with rfl | rfl
    · rfl
    · simp [List.countP_cons, hp]
  have hcount2 : ∀ p : SrvEv → Bool,
      p (.saveMessage conv.id ("assistant".toList) chunks.flatten) = true →
      p (.saveMessage conv.id ("user".toList) (jsStrVal body.message)) = false →
      p (.emitFrame (.doneFrame conv.id)) = false →
      (∀ t, p (.emitFrame (.textFrame t)) = false) →
      convEvs.countP p = 0 →
      (chatPOST db body freshConvId (chunks.map .ok)).2.countP p = 1 := by
    intro p ha hu hd ht hconv
    rw [htrace]
    have h0 : List.countP (p ∘ fun t => SrvEv.emitFrame (Frame.textFrame t)) chunks = 0 :=
      List.countP_eq_zero.mpr (fun t _ => by simp [Function.comp, ht t])
    simp only [List.countP_append, List.countP_cons, List.countP_map, hconv, h0, hu, ha, hd]
    simp
  refine ⟨htrace, ?_, ?_⟩
  · exact hcount isUserSave (by simp [isUserSave]) (by simp [isAssistantSave, isUserSave])
      (by simp [isUserSave]) (fun t => by simp [isUserSave])
      (hconvEvs isUserSave (fun a b => by simp [isUserSave]))
  · exact hcount2 isAssistantSave (by simp [isAssistantSave]) (by simp [isAssistantSave])
      (by simp [isAssistantSave]) (fun t => by simp [isAssistantSave])
      (hconvEvs isAssistantSave (fun a b => by simp [isAssistantSave]))

/-- Witness for C3 (amended) at the concrete turn of the scenario. -/
theorem C3_persistence_order_witness :
    jsTruthy chatBody0.highlightId = true ∧
    jsTruthy chatBody0.message = true ∧
    resolveConversation chatDb0 chatBody0 ("cF".toList) =
      some ({ id := "c9".toList, highlightId := "h1".toList }, []) ∧
    (chatPOST chatDb0 chatBody0 ("cF".toList)
        [.ok ("Hel".toList), .ok ("lo".toList)]).2.countP isUserSave = 1 ∧
    (chatPOST chatDb0 chatBody0 ("cF".toList)
        [.ok ("Hel".toList), .ok ("lo".toList)]).2.countP isAssistantSave = 1 := by
  have h := C3_persistence_order chatDb0 chatBody0 ("cF".toList)
    [("Hel".toList), ("lo".toList)] { id := "c9".toList, highlightId := "h1".toList } []
    rfl rfl rfl
  exact ⟨rfl, rfl, rfl, h.2.1, h.2.2⟩

/-! ### C4: an error frame ends the turn in the errored state -/

/-- C4: a turn whose response consists of the single frame
`data: \x7b"error":"rate limited"\x7d\n\n` ends in the errored state with
exactly that message surfaced: the in-progress assistant placeholder is
replaced by the carried message (the frame is not ignored).  And on the
server an assistant message is persisted if and only if the terminal
`done` frame is emitted, so a turn that ends without the terminal frame —
in particular one ending in an error — persists no assistant message. -/
theorem C4_error_frame (msgs : List ChatMsg) (m : List Char) :
    (handleSendTurn msgs m [encodeChunkOfFrames [.errorFrame ("rate limited".toList)]] =
      (msgs ++ [{ role := "user".toList, content := m },
                { role := "assistant".toList, content := "rate limited".toList }],
       .errored ("rate limited".toList))) ∧
    (∀ (cid acc : List Char) (llm : List (Except (List Char) (List Char))),
      (∃ content, SrvEv.saveMessage cid ("assistant".toList) content ∈
          chatStreamEvents cid llm acc) ↔
        SrvEv.emitFrame (.doneFrame cid) ∈ chatStreamEvents cid llm acc) := by
  constructor
  · have hread : readStream initStream
        [encodeChunkOfFrames [.errorFrame ("rate limited".toList)]] =
        .error ("rate limited".toList) := rfl
    unfold handleSendTurn
    rw [hread]
    simp [List.dropLast_concat]
  · intro cid acc llm
    induction llm generalizing acc with
    | nil => simp [chatStreamEvents]
    | cons r rest ih =>
      cases r with
      | ok t => simpa [chatStreamEvents] using ih (acc ++ t)
      | error e => simp [chatStreamEvents]

/-! ### Highlight store routes (`src/app/api/highlights/route.ts`)

`GET` returns highlights with nested conversation and messages, messages
ordered by `createdAt` ascending; `POST` validates and creates; `DELETE`
snapshots the highlight (with relations, messages ordered ascending) and
then deletes with cascade; `PUT` recreates a snapshotted highlight,
conversation and messages with their original ids and timestamps, then
refetches the restored highlight. -/

structure MsgSnap where
  id : List Char
  role : List Char
  content : List Char
  createdAt : Int
  deriving DecidableEq, Repr

structure ConvSnap where
  id : List Char
  createdAt : Int
  messages : List MsgSnap
  deriving DecidableEq, Repr

/-- A full highlight snapshot — both the shape of the `DELETE` response
(the tombstone kept for undo) and of the `PUT` request and response. -/
structure HlSnap where
  id : List Char
  pdfId : List Char
  pageNumber : Int
  selectionRanges : List Char
  selectedText : List Char
  createdAt : Int
  conversation : Option ConvSnap
  deriving DecidableEq, Repr

structure HlRow where
  id : List Char
  pdfId : List Char
  pageNumber : Int
  selectionRanges : List Char
  selectedText : List Char
  createdAt : Int
  deriving DecidableEq, Repr

structure ConvRow where
  id : List Char
  highlightId : List Char
  createdAt : Int
  deriving DecidableEq, Repr

structure MsgRow where
  id : List Char
  conversationId : List Char
  role : List Char
  content : List Char
  createdAt : Int
  deriving DecidableEq, Repr

structure StoreDb where
  highlights : List HlRow
  conversations : List ConvRow
  messages : List MsgRow
  deriving DecidableEq, Repr

/-- Stable insertion used to model `orderBy: \x7b createdAt: 'asc' \x7d`. -/
def insertByTime (m : MsgSnap) : List MsgSnap → List MsgSnap
  | [] => [m]
  | x :: xs =>
    if m.createdAt ≤ x.createdAt then m :: x :: xs else x :: insertByTime m xs

def sortByTime : List MsgSnap → List MsgSnap
  | [] => []
  | m :: ms => insertByTime m (sortByTime ms)

def msgSnapOfRow (m : MsgRow) : MsgSnap :=
  { id := m.id, role := m.role, content := m.content, createdAt := m.createdAt }

/-- `db.highlight.findUnique` with nested conversation and messages,
messages ordered by creation ascending (used by `DELETE` to build the
tombstone and by `PUT` to build the response). -/
def findHighlightFull (db : StoreDb) (i : List Char) : Option HlSnap :=
  (db.highlights.find? (fun h => h.id == i)).map (fun h =>
    { id := h.id, pdfId := h.pdfId, pageNumber := h.pageNumber,
      selectionRanges := h.selectionRanges, selectedText := h.selectedText,
      createdAt := h.createdAt,
      conversation :=
        (db.conversations.find? (fun c => c.highlightId == h.id)).map (fun c =>
          { id := c.id, createdAt := c.createdAt,
            messages := sortByTime
              ((db.messages.filter (fun m => m.conversationId == c.id)).map
                msgSnapOfRow) }) })

/-- The highlight row the `PUT` (restore) handler recreates from a
snapshot, with the snapshot's own id and timestamp. -/
def hlRowOfSnap (snap : HlSnap) : HlRow :=
  { id := snap.id, pdfId := snap.pdfId, pageNumber := snap.pageNumber,
    selectionRanges := snap.selectionRanges, selectedText := snap.selectedText,
    createdAt := snap.createdAt }

def convRowOfSnap (snap : HlSnap) (c : ConvSnap) : ConvRow :=
  { id := c.id, highlightId := snap.id, createdAt := c.createdAt }

def msgRowOfSnap (c : ConvSnap) (m : MsgSnap) : MsgRow :=
  { id := m.id, conversationId := c.id, role := m.role, content := m.content,
    createdAt := m.createdAt }

/-- The database writes of the `PUT` (restore) handler: recreate the
highlight row, the conversation row and the message rows with the
snapshot's own ids and timestamps. -/
def restoreDb (db : StoreDb) (snap : HlSnap) : StoreDb :=
  match snap.conversation with
  | none => { db with highlights := db.highlights ++ [hlRowOfSnap snap] }
  | some c =>
    { highlights := db.highlights ++ [hlRowOfSnap snap],
      conversations := db.conversations ++ [convRowOfSnap snap c],
      messages := db.messages ++ c.messages.map (msgRowOfSnap c) }

/-- Embedding of the `PUT` (restore) handler: apply the restore writes,
then refetch the restored highlight (messages ordered ascending). -/
def restorePUT (db : StoreDb) (snap : HlSnap) : StoreDb × Option HlSnap :=
  (restoreDb db snap, findHighlightFull (restoreDb db snap) snap.id)

/-- Embedding of the `DELETE` handler: snapshot the highlight with its
relations for undo, then delete it, cascading to its conversation and
messages. -/
def deleteDELETE (db : StoreDb) (i : List Char) : StoreDb × Option HlSnap :=
  match findHighlightFull db i with
  | none => (db, none)
  | some snap =>
    let deletedConvIds :=
      (db.conversations.filter (fun c => c.highlightId == i)).map (fun c => c.id)
    ({ highlights := db.highlights.filter (fun h => !(h.id == i)),
       conversations := db.conversations.filter (fun c => !(c.highlightId == i)),
       messages := db.messages.filter
         (fun m => !(deletedConvIds.contains m.conversationId)) },
     some snap)

/-! ### Sorting lemmas -/

theorem chainLe_insertByTime (m : MsgSnap) :
    ∀ l, List.Chain' (fun a b => a.createdAt ≤ b.createdAt) l →
      List.Chain' (fun a b => a.createdAt ≤ b.createdAt) (insertByTime m l) := by
  intro l
  induction l with
  | nil => intro _; simp [insertByTime]
  | cons x xs ih =>
    intro hch
    rw [insertByTime]
    by_cases hle : m.createdAt ≤ x.createdAt
    · rw [if_pos hle]
      exact List.chain'_cons.mpr ⟨hle, hch⟩
    · rw [if_neg hle]
      have hxm : x.createdAt ≤ m.createdAt := le_of_lt (lt_of_not_le hle)
      have htail := (List.chain'_cons'.mp hch).2
      refine List.chain'_cons'.mpr ⟨?_, ih htail⟩
      intro y hy
      cases xs with
      | nil =>
        simp [insertByTime] at hy
        exact hy ▸ hxm
      | cons z zs =>
        rw [insertByTime] at hy
        by_cases hz : m.createdAt ≤ z.createdAt
        · rw [if_pos hz] at hy
          simp at hy
          exact hy ▸ hxm
        · rw [if_neg hz] at hy
          simp at hy
          exact hy ▸ (List.chain'_cons'.mp hch).1 z rfl

theorem chainLe_sortByTime :
    ∀ l, List.Chain' (fun a b => a.createdAt ≤ b.createdAt) (sortByTime l) := by
  intro l
  induction l with
  | nil => simp [sortByTime]
  | cons m ms ih => exact chainLe_insertByTime m (sortByTime ms) ih

/-- A list already sorted ascending by timestamp is left unchanged by the
model of `orderBy createdAt asc` (ties keep their order). -/
theorem sortByTime_sorted_id :
    ∀ l, List.Chain' (fun a b => a.createdAt ≤ b.createdAt) l →
      sortByTime l = l := by
  intro l
  induction l with
  | nil => intro _; rfl
  | cons m ms ih =>
    intro hch
    have htail := (List.chain'_cons'.mp hch).2
    rw [sortByTime, ih htail]
    cases ms with
    | nil => rfl
    | cons x xs =>
      rw [insertByTime, if_pos ((List.chain'_cons'.mp hch).1 x rfl)]

/-! ### C6: delete/undo restores identical identities -/

/-- C6: restoring a tombstone into a store that no longer contains its
identifiers (which is exactly the state `DELETE` leaves behind) returns a
highlight identical to the tombstone: same highlight id and creation
timestamp, same conversation id, and the messages with their original
ids, contents, timestamps, in their original ascending order — no new
identifiers or timestamps are generated.  The second conjunct shows that
every tombstone produced by `DELETE` has its messages in ascending order,
which is the sortedness the first conjunct relies on. -/
theorem C6_restore_identity (db : StoreDb) (snap : HlSnap)
    (hnoHl : ∀ h ∈ db.highlights, (h.id == snap.id) = false)
    (hnoConv : ∀ c ∈ db.conversations, (c.highlightId == snap.id) = false)
    (hnoMsg : ∀ cs, snap.conversation = some cs →
        ∀ m ∈ db.messages, (m.conversationId == cs.id) = false)
    (hsorted : ∀ cs, snap.conversation = some cs →
        List.Chain' (fun a b => a.createdAt ≤ b.createdAt) cs.messages) :
    (restorePUT db snap).2 = some snap ∧
    (∀ (db0 : StoreDb) (i : List Char) (snap0 : HlSnap),
        (deleteDELETE db0 i).2 = some snap0 →
        ∀ cs, snap0.conversation = some cs →
          List.Chain' (fun a b => a.createdAt ≤ b.createdAt) cs.messages) := by
  constructor
  · obtain ⟨sid, spdf, spage, sran, stext, scre, sconv⟩ := snap
    simp only at hnoHl hnoConv hnoMsg hsorted
    have h1 : List.find? (fun h => h.id == sid)
        (db.highlights ++ [(⟨sid, spdf, spage, sran, stext, scre⟩ : HlRow)]) =
          some ⟨sid, spdf, spage, sran, stext, scre⟩ := by
      rw [List.find?_append,
        List.find?_eq_none.mpr (fun h hm => by simpa using hnoHl h hm)]
      simp
    cases sconv with
    | none =>
      have h2 : List.find? (fun c => c.highlightId == sid) db.conversations = none :=
        List.find?_eq_none.mpr (fun c hm => by simpa using hnoConv c hm)
      show findHighlightFull
          ⟨db.highlights ++ [⟨sid, spdf, spage, sran, stext, scre⟩],
            db.conversations, db.messages⟩ sid =
        some ⟨sid, spdf, spage, sran, stext, scre, none⟩
      simp [findHighlightFull, h1, h2]
    | some cs =>
      have h2 : List.find? (fun c => c.highlightId == sid)
          (db.conversations ++ [(⟨cs.id, sid, cs.createdAt⟩ : ConvRow)]) =
            some ⟨cs.id, sid, cs.createdAt⟩ := by
        rw [List.find?_append,
          List.find?_eq_none.mpr (fun c hm => by simpa using hnoConv c hm)]
        simp
      have h3 : List.filter (fun m => m.conversationId == cs.id)
          (db.messages ++ cs.messages.map (msgRowOfSnap cs)) =
            cs.messages.map (msgRowOfSnap cs) := by
        rw [List.filter_append,
          List.filter_eq_nil_iff.mpr (fun m hm => by
            simpa using hnoMsg cs rfl m hm),
          List.filter_eq_self.mpr (fun m hm => by
            obtain ⟨m0, _, rfl⟩ := List.mem_map.mp hm
            simp [msgRowOfSnap]),
          List.nil_append]
      have h4 : (cs.messages.map (msgRowOfSnap cs)).map msgSnapOfRow = cs.messages := by
        rw [List.map_map,
          show msgSnapOfRow ∘ msgRowOfSnap cs = id from funext (fun m => rfl),
          List.map_id]
      have h5 : sortByTime cs.messages = cs.messages :=
        sortByTime_sorted_id cs.messages (hsorted cs rfl)
      show findHighlightFull
          ⟨db.highlights ++ [⟨sid, spdf, spage, sran, stext, scre⟩],
            db.conversations ++ [⟨cs.id, sid, cs.createdAt⟩],
            db.messages ++ cs.messages.map (msgRowOfSnap cs)⟩ sid =
        some ⟨sid, spdf, spage, sran, stext, scre, some cs⟩
      simp only [findHighlightFull]
      rw [h1]
      simp only [Option.map_some']
      rw [h2]
      simp only [Option.map_some']
      rw [h3, h4, h5]
  · intro db0 i snap0 hdel cs hcs
    unfold deleteDELETE at hdel
    cases hfind : findHighlightFull db0 i with
    | none => rw [hfind] at hdel; simp at hdel
    | some s =>
      rw [hfind] at hdel
      simp only [Option.some.injEq] at hdel
      subst hdel
      unfold findHighlightFull at hfind
      cases hf2 : List.find? (fun h => h.id == i) db0.highlights with
      | none => rw [hf2] at hfind; simp at hfind
      | some h =>
        rw [hf2, Option.map_some'] at hfind
        have hconv := congrArg HlSnap.conversation (Option.some.inj hfind)
        simp only at hconv
        rw [hcs] at hconv
        cases hf3 : List.find? (fun c => c.highlightId == h.id) db0.conversations with
        | none => rw [hf3, Option.map_none'] at hconv; simp at hconv
        | some c =>
          rw [hf3, Option.map_some'] at hconv
          have hcseq := Option.some.inj hconv
          rw [← hcseq]
          exact chainLe_sortByTime _

/-- Highlight row of the C6 scenario store. -/
def hlRow0 : HlRow :=
  { id := "h1".toList, pdfId := "d1".toList, pageNumber := 1,
    selectionRanges := "[]".toList, selectedText := "A".toList, createdAt := 100 }

def convRow0 : ConvRow :=
  { id := "c1".toList, highlightId := "h1".toList, createdAt := 110 }

def msgRow1 : MsgRow :=
  { id := "m1".toList, conversationId := "c1".toList, role := "user".toList,
    content := "q".toList, createdAt := 120 }

def msgRow2 : MsgRow :=
  { id := "m2".toList, conversationId := "c1".toList, role := "assistant".toList,
    content := "r".toList, createdAt := 130 }

/-- The pre-delete store of the C6 scenario: highlight `h1` with
conversation `c1` and messages `m1`, `m2`. -/
def storeDb0 : StoreDb :=
  { highlights := [hlRow0], conversations := [convRow0], messages := [msgRow1, msgRow2] }

def msgSnap1 : MsgSnap :=
  { id := "m1".toList, role := "user".toList, content := "q".toList, createdAt := 120 }

def msgSnap2 : MsgSnap :=
  { id := "m2".toList, role := "assistant".toList, content := "r".toList, createdAt := 130 }

def convSnapC6 : ConvSnap :=
  { id := "c1".toList, createdAt := 110, messages := [msgSnap1, msgSnap2] }

/-- The tombstone `DELETE` produces for `h1` in `storeDb0`. -/
def snapC6 : HlSnap :=
  { id := "h1".toList, pdfId := "d1".toList, pageNumber := 1,
    selectionRanges := "[]".toList, selectedText := "A".toList, createdAt := 100,
    conversation := some convSnapC6 }

/-- Witness for C6: deleting `h1` (conversation `c1`, messages `m1`, `m2`)
yields exactly the tombstone `snapC6`, and restoring that tombstone into
the post-delete store reproduces it identically — same ids, timestamps,
contents and message order. -/
theorem C6_restore_identity_witness :
    (deleteDELETE storeDb0 ("h1".toList)).2 = some snapC6 ∧
    (restorePUT (deleteDELETE storeDb0 ("h1".toList)).1 snapC6).2 = some snapC6 := by
  refine ⟨by decide, ?_⟩
  have hsub : ∀ cs : ConvSnap, snapC6.conversation = some cs → cs = convSnapC6 := by
    intro cs hcs
    have h2 : some convSnapC6 = some cs := hcs
    exact (Option.some.inj h2).symm
  exact (C6_restore_identity (deleteDELETE storeDb0 ("h1".toList)).1 snapC6
    (by decide) (by decide)
    (fun cs hcs => by rw [hsub cs hcs]; decide)
    (fun cs hcs => by
      rw [hsub cs hcs]
      refine List.chain'_cons.mpr ⟨?_, List.chain'_singleton _⟩
      norm_num [msgSnap1, msgSnap2])).1

/-! ### C10: highlight-creation validation -/

structure HlCreateBody where
  pdfId : JsVal
  pageNumber : JsVal
  selectionRanges : JsVal
  selectedText : JsVal
  deriving DecidableEq, Repr

/-- Embedding of the highlight `POST` handler's validation and create:
the result is the HTTP status together with whether `db.highlight.create`
was executed. -/
def highlightsPOST (body : HlCreateBody) : Int × Bool :=
  if !(jsTruthy body.pdfId) || body.pageNumber == JsVal.undef
      || !(jsTruthy body.selectionRanges) || !(jsTruthy body.selectedText) then
    (400, false)
  else
    (201, true)

/-- A create request with `pageNumber = 0` and all other fields present. -/
def bodyPage0 : HlCreateBody :=
  { pdfId := .jsstr ("d".toList), pageNumber := .jsnum 0,
    selectionRanges := .jsobj, selectedText := .jsstr ("A".toList) }

/-- A create request with `pageNumber = null`. -/
def bodyPageNull : HlCreateBody :=
  { pdfId := .jsstr ("d".toList), pageNumber := .jsnull,
    selectionRanges := .jsobj, selectedText := .jsstr ("A".toList) }

/-- A create request whose `selectedText` is the empty string. -/
def bodyEmptyText : HlCreateBody :=
  { pdfId := .jsstr ("d".toList), pageNumber := .jsnum 1,
    selectionRanges := .jsobj, selectedText := .jsstr [] }

/-- C10: the create endpoint returns 400 and writes nothing exactly when
`pdfId`, `selectionRanges` or `selectedText` is absent or falsy (the
empty string included) or `pageNumber` is `undefined`; a request with
`pageNumber = 0` or `pageNumber = null` passes this validation and
proceeds to create the highlight. -/
theorem C10_create_validation (body : HlCreateBody) :
    (highlightsPOST body = (400, false) ↔
      (jsTruthy body.pdfId = false ∨ body.pageNumber = JsVal.undef ∨
       jsTruthy body.selectionRanges = false ∨ jsTruthy body.selectedText = false)) ∧
    highlightsPOST bodyPage0 = (201, true) ∧
    highlightsPOST bodyPageNull = (201, true) ∧
    highlightsPOST bodyEmptyText = (400, false) := by
  refine ⟨?_, by decide, by decide, by decide⟩
  unfold highlightsPOST
  by_cases hc : (!(jsTruthy body.pdfId) || body.pageNumber == JsVal.undef
      || !(jsTruthy body.selectionRanges) || !(jsTruthy body.selectedText)) = true
  · rw [if_pos hc]
    simp only [Bool.or_eq_true, Bool.not_eq_true', beq_iff_eq] at hc
    constructor
    · intro _
      tauto
    · intro _
      rfl
  · rw [if_neg hc]
    simp only [Bool.or_eq_true, Bool.not_eq_true', beq_iff_eq, not_or] at hc
    constructor
    · intro habs
      exact absurd habs (by decide)
    · intro hdisj
      rcases hdisj with h | h | h | h
      · exact absurd h hc.1.1.1
      · exact absurd h hc.1.1.2
      · exact absurd h hc.1.2
      · exact absurd h hc.2

end PaperReader
